import Mathlib

/-!
Shallow embedding of the cold-io repository core (files `request.rs`,
`proposal.rs`, `marked_stream.rs`, `managed_stream.rs`, `proposer.rs`,
`stream_registry.rs`, `proposer_error.rs`) and a verification of the
specification's claims about it.

Modelling conventions:
* machine integers (`u16`, `usize`) become `Nat`; the source's `token.0 as u16`
  truncation is written `% 2 ^ 16` explicitly;
* `io::Result` becomes `Except IOError _` where `IOError` is the error kind,
  the only part of `std::io::Error` the source inspects;
* the OS (mio poller, TCP sockets) is an oracle `NetEnv` supplying the results
  of `bind`, `connect`, `poll`, `accept` and `shutdown` calls; the mio
  `Registry` is modelled as a finite map from tokens to the interests last
  submitted by `register` and `reregister` calls, which is mio's documented
  semantics;
* `BTreeMap` and `BTreeSet` become association lists and lists used as sets:
  every map key below (socket address or token) is compared for equality only,
  and no claim depends on the sorted iteration order of `BTreeMap`;
* the user's state machine (`State::accept`) is an abstract step function
  `σ → ProposalKind → σ × Request`; the rng and elapsed-time channels of a
  `Proposal`, which no claim mentions, are not modelled.
-/

namespace ColdIo

/-- Error kinds of `std::io::Error` that the source distinguishes. -/
inductive IOErrorKind where
  | interrupted
  | wouldBlock
  | notConnected
  | other
deriving DecidableEq, Repr

/-- An OS error, identified by its kind (the only part the source inspects). -/
abbrev IOError := IOErrorKind

/-- Embeds `ConnectionSource` from `request.rs`: `{None, Port(u16)}`. -/
inductive ConnectionSource where
  | noSource
  | port (p : Nat)
deriving DecidableEq, Repr

/-- A socket address: ip (abstract, equality only) and port. -/
structure SocketAddr where
  ip : Nat
  port : Nat
deriving DecidableEq, Repr

/-- Embeds `Request` from `request.rs`: optional listener source plus blacklist and
connect address sequences. -/
structure Request where
  source : Option ConnectionSource := Option.none
  blacklist : List SocketAddr := []
  connect : List SocketAddr := []
deriving DecidableEq, Repr

/-- Embeds `impl AddAssign<Request> for Request` (`request.rs` lines 76-90):
the source slot is filled from the right operand only when the left one is
empty; the two sequences are appended, left operand first. -/
def Request.merge (self rhs : Request) : Request :=
  { source := if self.source.isNone && rhs.source.isSome then rhs.source else self.source
    blacklist := self.blacklist ++ rhs.blacklist
    connect := self.connect ++ rhs.connect }

/-- Embeds `Request::is_empty`. -/
def Request.is_empty (r : Request) : Bool :=
  r.source.isNone && r.blacklist.isEmpty && r.connect.isEmpty

/-- Embeds `IoResult` from `proposal.rs`. -/
inductive IoResult where
  | closed
  | done (length : Nat) (will_close : Bool)
deriving DecidableEq, Repr

/-- Embeds `ConnectionId` from `proposal.rs`: `(poll_id: u16, token: u16)`. -/
structure ConnectionId where
  poll_id : Nat
  token : Nat
deriving DecidableEq, Repr

/-- Embeds `ProposalKind` from `proposal.rs`; the once-token payloads of
`OnReadable`/`OnWritable` and the user `Custom` variant carry no data the
claims inspect and are elided. -/
inductive ProposalKind where
  | wake
  | idle
  | connection (addr : SocketAddr) (incoming : Bool) (id : ConnectionId)
  | onReadable (id : ConnectionId)
  | onWritable (id : ConnectionId)
deriving DecidableEq, Repr

/-- Embeds `MarkedStream` from `marked_stream.rs`: the six booleans; the wrapped OS
`TcpStream` itself lives behind the `NetEnv` oracle. -/
structure MarkedStream where
  reader : Bool := false
  readerDiscarded : Bool := false
  readerUsed : Bool := false
  writer : Bool := false
  writerDiscarded : Bool := false
  writerUsed : Bool := false
deriving DecidableEq, Repr

/-- Embeds `ManagedStream` from `managed_stream.rs`: the shared `MarkedStream` record
plus the registry token. -/
structure ManagedStream where
  inner : MarkedStream := {}
  token : Nat
deriving DecidableEq, Repr

/-- Embeds `ManagedStream::write_once` (`managed_stream.rs` lines 37-45): mint a
write token iff the direction is neither outstanding nor discarded; minting
sets the outstanding flag.  The returned state is the stream after the mint. -/
def ManagedStream.write_once (s : ManagedStream) : Option ManagedStream :=
  if !s.inner.writer && !s.inner.writerDiscarded then
    Option.some { s with inner := { s.inner with writer := true } }
  else
    Option.none

/-- Embeds `ManagedStream::read_once` (`managed_stream.rs` lines 47-55). -/
def ManagedStream.read_once (s : ManagedStream) : Option ManagedStream :=
  if !s.inner.reader && !s.inner.readerDiscarded then
    Option.some { s with inner := { s.inner with reader := true } }
  else
    Option.none

/-- Embeds `ManagedStream::closed`: both halves discarded. -/
def ManagedStream.closed (s : ManagedStream) : Bool :=
  s.inner.readerDiscarded && s.inner.writerDiscarded

/-- Embeds `ManagedStream::set_read_closed`. -/
def ManagedStream.set_read_closed (s : ManagedStream) : ManagedStream :=
  { s with inner := { s.inner with readerDiscarded := true } }

/-- Embeds `ManagedStream::set_write_closed`. -/
def ManagedStream.set_write_closed (s : ManagedStream) : ManagedStream :=
  { s with inner := { s.inner with writerDiscarded := true } }

/-- Interests submitted to the poller, mirroring the three non-empty values
`READABLE | WRITABLE`, `READABLE`, `WRITABLE` of `mio::Interest`. -/
inductive Interest where
  | readable
  | writable
  | both
deriving DecidableEq, Repr

/-- Whether an interest value covers the read direction. -/
def Interest.isReadable : Interest → Bool
  | .readable => true
  | .writable => false
  | .both => true

/-- Whether an interest value covers the write direction. -/
def Interest.isWritable : Interest → Bool
  | .readable => false
  | .writable => true
  | .both => true

/-- Embeds `ManagedStream::interests` (`managed_stream.rs` lines 85-95):
the 2 by 2 lattice on `(!outstanding && !discarded)` per direction. -/
def ManagedStream.interests (s : ManagedStream) : Option Interest :=
  let read := !s.inner.reader && !s.inner.readerDiscarded
  let write := !s.inner.writer && !s.inner.writerDiscarded
  match read, write with
  | true, true => Option.some Interest.both
  | true, false => Option.some Interest.readable
  | false, true => Option.some Interest.writable
  | false, false => Option.none

/-- Embeds `impl WriteOnce for TcpWriteOnce::write` (`managed_stream.rs` lines
100-124), on the live-stream path (the `Weak` upgrade succeeded): captures
`will_close` from the discarded flag before the call, marks the direction
used, and folds the OS write result (`osResult`) into an `IoResult`. -/
def tcpWriteOnceWrite (s : MarkedStream) (osResult : Except IOError Nat) :
    MarkedStream × IoResult :=
  let will_close := s.writerDiscarded
  let s := { s with writerUsed := true }
  match osResult with
  | .ok length => (s, .done length will_close)
  | .error e =>
    match e with
    | .notConnected => (s, .closed)
    | .wouldBlock => (s, .done 0 will_close)
    | _ => (s, .closed)

/-- Embeds `impl ReadOnce for TcpReadOnce::read` (`managed_stream.rs` lines 147-171),
on the live-stream path. -/
def tcpReadOnceRead (s : MarkedStream) (osResult : Except IOError Nat) :
    MarkedStream × IoResult :=
  let will_close := s.readerDiscarded
  let s := { s with readerUsed := true }
  match osResult with
  | .ok length => (s, .done length will_close)
  | .error e =>
    match e with
    | .notConnected => (s, .closed)
    | .wouldBlock => (s, .done 0 will_close)
    | _ => (s, .closed)

/-- Embeds `impl Drop for TcpWriteOnce` (`managed_stream.rs` lines 126-142), on the
live-stream path: `writer_discarded := !writer_used`, clear `writer_used` and
the outstanding `writer` flag, then unconditionally attempt
`shutdown(Shutdown::Write)`.  The returned boolean records that the OS
half-shutdown of the write direction was attempted. -/
def tcpWriteOnceDrop (s : MarkedStream) : MarkedStream × Bool :=
  ({ s with writerDiscarded := !s.writerUsed, writerUsed := false, writer := false }, true)

/-- Embeds `impl Drop for TcpReadOnce` (`managed_stream.rs` lines 173-189), on the
live-stream path; the boolean records the attempted `shutdown(Shutdown::Read)`. -/
def tcpReadOnceDrop (s : MarkedStream) : MarkedStream × Bool :=
  ({ s with readerDiscarded := !s.readerUsed, readerUsed := false, reader := false }, true)

/-! Association-list maps standing in for `BTreeMap` (keys compared for
equality; no claim depends on sorted iteration order). `alInsert` replaces an
existing binding, as `BTreeMap::insert` does. -/

/-- Look a key up in an association list. -/
def alLookup {α β : Type} [DecidableEq α] : List (α × β) → α → Option β
  | [], _ => Option.none
  | (k, v) :: rest, key => if k = key then Option.some v else alLookup rest key

/-- Insert, replacing an existing binding for the key. -/
def alInsert {α β : Type} [DecidableEq α] : List (α × β) → α → β → List (α × β)
  | [], key, v => [(key, v)]
  | (k, w) :: rest, key, v =>
    if k = key then (key, v) :: rest else (k, w) :: alInsert rest key v

/-- Remove the binding for a key.  In a `BTreeMap` keys are unique, so
removal is equivalently modelled as filtering the key out. -/
def alRemove {α β : Type} [DecidableEq α] : List (α × β) → α → List (α × β)
  | [], _ => []
  | (k, w) :: rest, key =>
    if k = key then alRemove rest key else (k, w) :: alRemove rest key

/-- Embeds `BTreeMap::contains_key`. -/
def alContains {α β : Type} [DecidableEq α] (l : List (α × β)) (key : α) : Bool :=
  (alLookup l key).isSome

/-- Embeds `BTreeSet::insert` on a list used as a set. -/
def setInsert (l : List Nat) (x : Nat) : List Nat :=
  if x ∈ l then l else l ++ [x]

/-- The reserved listener token `Token(usize::MAX)`. -/
def listenerToken : Nat := 2 ^ 64 - 1

/-- The mio poller registry, as the map from tokens to the interests last
submitted by `register`/`reregister`; `deregister` removes the entry. -/
abbrev Registrations := List (Nat × Interest)

/-- Embeds `ProposerError` from `proposer.rs` lines 317-324 (the variant in
`proposer_error.rs` has the same fields): all errors accumulated across one
iteration. -/
structure ProposerError where
  listen_error : Option (ConnectionSource × IOError) := Option.none
  connect_errors : List (SocketAddr × IOError) := []
  disconnect_errors : List (SocketAddr × IOError) := []
  accept_error : Option IOError := Option.none
  poll_error : Option IOError := Option.none
deriving DecidableEq, Repr

/-- Embeds `ProposerError::is_empty`. -/
def ProposerError.is_empty (e : ProposerError) : Bool :=
  e.listen_error.isNone && e.connect_errors.isEmpty && e.disconnect_errors.isEmpty
    && e.accept_error.isNone && e.poll_error.isNone

/-- Embeds `ProposerError::into_result`. -/
def ProposerError.into_result (e : ProposerError) : Except ProposerError Unit :=
  if e.is_empty then Except.ok () else Except.error e

/-- One readiness event from the poller (`mio::event::Event`). -/
structure MioEvent where
  token : Nat
  is_readable : Bool := false
  is_writable : Bool := false
  is_read_closed : Bool := false
  is_write_closed : Bool := false
deriving DecidableEq, Repr

/-- The `Proposer` state from `proposer.rs` lines 25-38.  `regs` models the
OS poller registry; `listener` holds the bound port when listening.  The
reusable `Events` buffer is not part of the state: the poll outcome comes
from the `NetEnv` oracle. -/
structure Proposer where
  started : Bool := false
  request : Request := {}
  regs : Registrations := []
  id : Nat
  listener : Option Nat := Option.none
  streams : List (SocketAddr × ManagedStream) := []
  in_progress : List (Nat × SocketAddr) := []
  blacklist : List Nat := []
  last_token : Nat := 0
deriving DecidableEq, Repr

/-- The OS oracle: outcomes of the fallible OS calls one iteration makes.
`accept` is indexed by the number of accept calls already made this
iteration.  `discard` is the result of the `shutdown(Shutdown::Both)` a
`ManagedStream::discard` performs for the stream at the given address. -/
structure NetEnv where
  bind : Nat → Except IOError Unit
  connect : SocketAddr → Except IOError Unit
  discard : SocketAddr → Except IOError Unit
  poll : Except IOError (List MioEvent)
  accept : Nat → Except IOError SocketAddr

/-- The moving parts of one `run_inner` call: the proposer, the user state
machine's state, the trace of proposals sent so far (observation), the
accumulated `ProposerError`, and a log of the addresses whose streams were
discarded (`shutdown Both`) during blacklist processing (observation). -/
structure RunState (σ : Type) where
  p : Proposer
  s : σ
  trace : List ProposalKind := []
  err : ProposerError := {}
  discardLog : List SocketAddr := []

/-- A user state machine: `State::accept`, abstracted. -/
abbrev StateMachine (σ : Type) := σ → ProposalKind → σ × Request

/-- Embeds `Proposer::allocate_token` (`proposer.rs` lines 63-67). -/
def Proposer.allocate_token (p : Proposer) : Proposer × Nat :=
  ({ p with last_token := p.last_token + 1 }, p.last_token)

/-- Embeds `Proposer::send_proposal` (`proposer.rs` lines 69-87): deliver the
proposal to the state machine and merge the returned request into the
pending one (`self.request += state.accept(proposal)`). -/
def sendProposal {σ : Type} (sm : StateMachine σ) (rs : RunState σ)
    (kind : ProposalKind) : RunState σ :=
  let (s, req) := sm rs.s kind
  { rs with
      s := s
      trace := rs.trace ++ [kind]
      p := { rs.p with request := rs.p.request.merge req } }

/-- Embeds `Proposer::set_source` (`proposer.rs` lines 89-109): deregister any
current listener, then for `Port(p)` bind and register a new one. -/
def setSource (env : NetEnv) (p : Proposer) (source : ConnectionSource) :
    Proposer × Except IOError Unit :=
  let p :=
    match p.listener with
    | Option.some _ =>
      { p with listener := Option.none, regs := alRemove p.regs listenerToken }
    | Option.none => p
  match source with
  | .noSource => (p, .ok ())
  | .port pt =>
    match env.bind pt with
    | .ok () =>
      ({ p with
          listener := Option.some pt
          regs := alInsert p.regs listenerToken .readable }, .ok ())
    | .error e => (p, .error e)

/-- Embeds `Proposer::disconnect_peer` (`proposer.rs` lines 111-121): if a stream is
registered at the address, remove it, deregister its token and discard it
(`ManagedStream::discard` sets both discarded flags on the dropped record and
attempts `shutdown(Shutdown::Both)`, whose outcome `env.discard` supplies). -/
def disconnectPeer (env : NetEnv) (p : Proposer) (addr : SocketAddr) :
    Proposer × Except IOError Unit × Bool :=
  match alLookup p.streams addr with
  | Option.some stream =>
    ({ p with
        streams := alRemove p.streams addr
        regs := alRemove p.regs stream.token }, env.discard addr, true)
  | Option.none => (p, .ok (), false)

/-- Embeds `Proposer::register_stream` (`proposer.rs` lines 123-138): allocate a
token, create a fresh `ManagedStream`, register it with the poller and index
it by address and by token. -/
def registerStream (p : Proposer) (addr : SocketAddr) (interests : Interest) :
    Proposer × Nat :=
  let (p, token) := p.allocate_token
  let stream : ManagedStream := { token := token }
  ({ p with
      regs := alInsert p.regs token interests
      streams := alInsert p.streams addr stream
      in_progress := alInsert p.in_progress token addr }, token)

/-- Embeds `Proposer::connect_peer` (`proposer.rs` lines 140-150): a no-op when a
stream for the address already exists; otherwise initiate the connect and,
on success, register for WRITABLE. -/
def connectPeer (env : NetEnv) (p : Proposer) (addr : SocketAddr) :
    Proposer × Except IOError (Option Nat) :=
  if !alContains p.streams addr then
    match env.connect addr with
    | .ok () =>
      let (p, token) := registerStream p addr .writable
      (p, .ok (Option.some token))
    | .error e => (p, .error e)
  else
    (p, .ok Option.none)

/-- Embeds `Proposer::reregister` (`proposer.rs` lines 152-169; identical logic in
`StreamRegistry::reregister`, `stream_registry.rs` lines 120-137): retain the
streams that are not closed, re-arm the poller for each retained stream with
a non-empty interest set (recording it in `in_progress`), and re-arm the
listener.  A retained stream whose `interests()` is `None` is skipped: no
`reregister` or `deregister` call is made for it, so its previous poller
registration, if any, stays in force. -/
def armLoop : Proposer → List (SocketAddr × ManagedStream) → Proposer
  | p, [] => p
  | p, e :: rest =>
    let p :=
      match e.2.interests with
      | Option.some i =>
        { p with
            regs := alInsert p.regs e.2.token i
            in_progress := alInsert p.in_progress e.2.token e.1 }
      | Option.none => p
    armLoop p rest

/-- Embeds `Proposer::reregister`, continued: the retain step, the arming loop and
the listener re-arm, in source order. -/
def reregister (p : Proposer) : Proposer :=
  let retained := p.streams.filter (fun e => !e.2.closed)
  let p := armLoop { p with streams := retained } retained
  match p.listener with
  | Option.some _ => { p with regs := alInsert p.regs listenerToken .readable }
  | Option.none => p

/-- Step 1 of `Proposer::run_inner` (`proposer.rs` lines 210-214): take and
apply a pending source change; a bind failure is captured as `listen_error`. -/
def phaseSource {σ : Type} (env : NetEnv) (rs : RunState σ) : RunState σ :=
  match rs.p.request.source with
  | Option.some source =>
    let p := { rs.p with request := { rs.p.request with source := Option.none } }
    let (p, r) := setSource env p source
    match r with
    | .ok () => { rs with p := p }
    | .error e =>
      { rs with p := p, err := { rs.err with listen_error := Option.some (source, e) } }
  | Option.none => rs

/-- One step of the blacklist loop (`proposer.rs` lines 216-221): insert the
peer's ip into the blacklist and disconnect it; a discard failure is pushed
onto `disconnect_errors`. -/
def blacklistOne {σ : Type} (env : NetEnv) (rs : RunState σ) (addr : SocketAddr) :
    RunState σ :=
  let p := { rs.p with blacklist := setInsert rs.p.blacklist addr.ip }
  let (p, r, discarded) := disconnectPeer env p addr
  let rs := { rs with p := p }
  let rs :=
    if discarded then { rs with discardLog := rs.discardLog ++ [addr] } else rs
  match r with
  | .ok () => rs
  | .error e =>
    { rs with err := { rs.err with disconnect_errors := rs.err.disconnect_errors ++ [(addr, e)] } }

/-- The blacklist loop of step 2, one address at a time in request order. -/
def blacklistLoop {σ : Type} (env : NetEnv) :
    RunState σ → List SocketAddr → RunState σ
  | rs, [] => rs
  | rs, addr :: rest => blacklistLoop env (blacklistOne env rs addr) rest

/-- Step 2 of `Proposer::run_inner`: `take_blacklist` empties the pending
blacklist, then each address is processed in order. -/
def phaseBlacklist {σ : Type} (env : NetEnv) (rs : RunState σ) : RunState σ :=
  let bl := rs.p.request.blacklist
  let rs := { rs with p := { rs.p with request := { rs.p.request with blacklist := [] } } }
  blacklistLoop env rs bl

/-- One step of the connect loop (`proposer.rs` lines 225-241): on a fresh
successful connect the proposer immediately emits
`Connection { addr, incoming: true, id }` — note the source sets
`incoming: true` on this outbound path — and merges the state machine's
response. -/
def connectOne {σ : Type} (env : NetEnv) (sm : StateMachine σ) (rs : RunState σ)
    (addr : SocketAddr) : RunState σ :=
  let (p, r) := connectPeer env rs.p addr
  match r with
  | .error e =>
    { rs with
        p := p
        err := { rs.err with connect_errors := rs.err.connect_errors ++ [(addr, e)] } }
  | .ok Option.none => { rs with p := p }
  | .ok (Option.some token) =>
    sendProposal sm { rs with p := p }
      (.connection addr true { poll_id := p.id, token := token % 2 ^ 16 })

/-- The connect loop of step 4, one address at a time in request order. -/
def connectLoop {σ : Type} (env : NetEnv) (sm : StateMachine σ) :
    RunState σ → List SocketAddr → RunState σ
  | rs, [] => rs
  | rs, addr :: rest => connectLoop env sm (connectOne env sm rs addr) rest

/-- Step 4 of `Proposer::run_inner`: `take_connects` empties the pending
connect list, then each address is processed in order. -/
def phaseConnects {σ : Type} (env : NetEnv) (sm : StateMachine σ) (rs : RunState σ) :
    RunState σ :=
  let cs := rs.p.request.connect
  let rs := { rs with p := { rs.p with request := { rs.p.request with connect := [] } } }
  connectLoop env sm rs cs

/-- Dispatch of one listener event (`proposer.rs` lines 258-279): a single
`accept()` call; on success a peer whose ip is not blacklisted is registered
for READABLE and announced with `Connection { addr, incoming: true, id }`,
while a blacklisted peer's stream is dropped on the spot (it is never
registered and produces no proposal); any accept failure — `WouldBlock`
included — is recorded as `accept_error`.  `acceptIdx` counts the accept
calls made so far this iteration. -/
def dispatchListener {σ : Type} (env : NetEnv) (sm : StateMachine σ)
    (rs : RunState σ) (acceptIdx : Nat) : RunState σ × Nat :=
  match rs.p.listener with
  | Option.none => (rs, acceptIdx)
  | Option.some _ =>
    match env.accept acceptIdx with
    | .ok addr =>
      if !(rs.p.blacklist.contains addr.ip) then
        let (p, token) := registerStream rs.p addr .readable
        (sendProposal sm { rs with p := p }
          (.connection addr true { poll_id := p.id, token := token % 2 ^ 16 }),
         acceptIdx + 1)
      else
        (rs, acceptIdx + 1)
    | .error e =>
      ({ rs with err := { rs.err with accept_error := Option.some e } }, acceptIdx + 1)

/-- The minting part of one connection event's dispatch (`proposer.rs` lines
286-306): mint a write token and queue `OnWritable` when the event is
writable (marking the half discarded when the poller also reported
write-closed), then symmetrically for readable; the queued proposals keep
source order, writable first.  The mint-failure branches carry the source's
`debug_assert` and queue nothing. -/
def mintW (event : MioEvent) (id : ConnectionId) (stream : ManagedStream) :
    ManagedStream × List ProposalKind :=
  if event.is_writable then
    match stream.write_once with
    | Option.some stream =>
      let stream :=
        if event.is_write_closed then stream.set_write_closed else stream
      (stream, [ProposalKind.onWritable id])
    | Option.none => (stream, [])
  else
    (stream, [])

/-- The readable half of the minting (`proposer.rs` lines 297-306). -/
def mintR (event : MioEvent) (id : ConnectionId) (stream : ManagedStream) :
    ManagedStream × List ProposalKind :=
  if event.is_readable then
    match stream.read_once with
    | Option.some stream =>
      let stream :=
        if event.is_read_closed then stream.set_read_closed else stream
      (stream, [ProposalKind.onReadable id])
    | Option.none => (stream, [])
  else
    (stream, [])

/-- Both halves in source order: writable first, against the updated record. -/
def mintProposals (event : MioEvent) (id : ConnectionId) (stream : ManagedStream) :
    ManagedStream × List ProposalKind :=
  let (stream, prW) := mintW event id stream
  let (stream, prR) := mintR event id stream
  (stream, prW ++ prR)

/-- Dispatch of one connection event (`proposer.rs` lines 280-310): claim the
token from `in_progress`, mint the proposals against the stream record and
send them in order.  The source `unwrap`s the stream lookup; the impossible
missing case is modelled as a skip. -/
def dispatchConn {σ : Type} (sm : StateMachine σ) (rs : RunState σ)
    (event : MioEvent) : RunState σ :=
  match alLookup rs.p.in_progress event.token with
  | Option.none => rs
  | Option.some addr =>
    let rs := { rs with p := { rs.p with in_progress := alRemove rs.p.in_progress event.token } }
    match alLookup rs.p.streams addr with
    | Option.none => rs
    | Option.some stream =>
      let id : ConnectionId := { poll_id := rs.p.id, token := stream.token % 2 ^ 16 }
      let (stream, pr) := mintProposals event id stream
      let rs := { rs with p := { rs.p with streams := alInsert rs.p.streams addr stream } }
      pr.foldl (sendProposal sm) rs

/-- The event loop of step 6, threading the accept-call counter. -/
def eventLoop {σ : Type} (env : NetEnv) (sm : StateMachine σ) :
    RunState σ × Nat → List MioEvent → RunState σ × Nat
  | acc, [] => acc
  | acc, event :: rest =>
    let acc :=
      if event.token = listenerToken then
        dispatchListener env sm acc.1 acc.2
      else
        (dispatchConn sm acc.1 event, acc.2)
    eventLoop env sm acc rest

/-- Dispatch all events of one poll in order. -/
def dispatchEvents {σ : Type} (env : NetEnv) (sm : StateMachine σ)
    (rs : RunState σ) (events : List MioEvent) : RunState σ :=
  (eventLoop env sm (rs, 0) events).1

/-- Step 6 of `Proposer::run_inner` (`proposer.rs` lines 253-311): when the
poll produced zero events a single `Idle` proposal is sent; otherwise each
event is dispatched. -/
def dispatchPhase {σ : Type} (env : NetEnv) (sm : StateMachine σ)
    (rs : RunState σ) (events : List MioEvent) : RunState σ :=
  let rs := if events.isEmpty then sendProposal sm rs .idle else rs
  dispatchEvents env sm rs events

/-- Steps 1-4 of `Proposer::run_inner` (`proposer.rs` lines 208-241): apply
the source change, apply the blacklist, reregister, apply the connects. -/
def prePollPhases {σ : Type} (env : NetEnv) (sm : StateMachine σ)
    (rs : RunState σ) : RunState σ :=
  let rs := phaseSource env rs
  let rs := phaseBlacklist env rs
  let rs := { rs with p := reregister rs.p }
  phaseConnects env sm rs

/-- Embeds `Proposer::run_inner` (`proposer.rs` lines 198-314): the pre-poll
phases, then the poll, then dispatch.  On a poll failure other than
`Interrupted` the events buffer is cleared, the failure is recorded as
`poll_error` and the accumulated error is returned at once — the dispatch
phase does not run.  An `Interrupted` poll proceeds with the (cleared) event
buffer. -/
def runInner {σ : Type} (env : NetEnv) (sm : StateMachine σ) (rs : RunState σ) :
    RunState σ × Except ProposerError Unit :=
  let rs := prePollPhases env sm rs
  match env.poll with
  | .ok events =>
    let rs := dispatchPhase env sm rs events
    (rs, rs.err.into_result)
  | .error e =>
    if e = .interrupted then
      let rs := dispatchPhase env sm rs []
      (rs, rs.err.into_result)
    else
      let rs := { rs with err := { rs.err with poll_error := Option.some e } }
      (rs, .error rs.err)

/-- Embeds `Proposer::run` (`proposer.rs` lines 179-196): the first call only sends
`Wake`; every later call runs `run_inner`. -/
def run {σ : Type} (env : NetEnv) (sm : StateMachine σ) (rs : RunState σ) :
    RunState σ × Except ProposerError Unit :=
  if rs.p.started then
    runInner env sm rs
  else
    let rs := { rs with p := { rs.p with started := true } }
    (sendProposal sm rs .wake, .ok ())

/-- Embeds `StreamRegistry::accept` (`stream_registry.rs` lines 144-158): one accept
call against a registry-shaped state (here reusing the `Proposer` record for
its listener/streams/token fields and a separate error record, as
`StreamRegistry` carries its own `ProposerError`).  `WouldBlock` returns
`None` without touching the error record; any other failure is recorded as
`accept_error`.  Note this variant consults no blacklist. -/
def streamRegistryAccept (p : Proposer) (err : ProposerError)
    (res : Except IOError SocketAddr) :
    Proposer × ProposerError × Option (SocketAddr × Nat) :=
  match p.listener with
  | Option.none => (p, err, Option.none)
  | Option.some _ =>
    match res with
    | .ok addr =>
      let (p, token) := registerStream p addr .readable
      (p, err, Option.some (addr, token))
    | .error e =>
      if e = .wouldBlock then
        (p, err, Option.none)
      else
        (p, { err with accept_error := Option.some e }, Option.none)

/-- The proposals a computation appended after `before`: every phase above
only appends to the trace. -/
def newProposals {σ : Type} (before after : RunState σ) : List ProposalKind :=
  after.trace.drop before.trace.length

instance {ε α : Type} [DecidableEq ε] [DecidableEq α] : DecidableEq (Except ε α) :=
  fun a b =>
    match a, b with
    | .ok x, .ok y =>
      if h : x = y then .isTrue (by rw [h]) else .isFalse (fun hc => by cases hc; exact h rfl)
    | .error x, .error y =>
      if h : x = y then .isTrue (by rw [h]) else .isFalse (fun hc => by cases hc; exact h rfl)
    | .ok _, .error _ => .isFalse (fun hc => by cases hc)
    | .error _, .ok _ => .isFalse (fun hc => by cases hc)

/-- Recognizes the `Idle` proposal. -/
def ProposalKind.isIdle : ProposalKind → Bool
  | .idle => true
  | _ => false

/-- Recognizes a readiness proposal (`OnReadable` or `OnWritable`). -/
def ProposalKind.isReadiness : ProposalKind → Bool
  | .onReadable _ => true
  | .onWritable _ => true
  | _ => false

/-- Holds when a proposal is not a `Connection` proposal naming the ip `x`. -/
def connAvoids (x : Nat) : ProposalKind → Bool
  | .connection addr _ _ => !(addr.ip = x)
  | _ => true

/-- Holds when a `Connection` proposal's address is outside the blacklist. -/
def noBlConn (bl : List Nat) : ProposalKind → Bool
  | .connection addr _ _ => !(bl.contains addr.ip)
  | _ => true

/-- The stream tokens of a proposer's connection table. -/
def streamTokens (p : Proposer) : List Nat :=
  p.streams.map (fun e => e.2.token)

/-! Concrete fixtures used by witnesses and counterexamples. -/

/-- A test address. -/
def addrA : SocketAddr := { ip := 10, port := 800 }

/-- A test address sharing `addrA`'s ip with a different port. -/
def addrB : SocketAddr := { ip := 10, port := 900 }

/-- A test address with a distinct ip. -/
def addrC : SocketAddr := { ip := 77, port := 1 }

/-- A state machine that always answers with the empty request. -/
def smNull : StateMachine Unit := fun _ _ => ((), {})

/-- An environment where every OS call succeeds and nothing is pending. -/
def envBase : NetEnv :=
  { bind := fun _ => .ok ()
    connect := fun _ => .ok ()
    discard := fun _ => .ok ()
    poll := .ok []
    accept := fun _ => .error .wouldBlock }

/-- A started proposer with one pending outbound connect. -/
def rsConnect : RunState Unit :=
  { p := { started := true, id := 7, request := { connect := [addrC] } }, s := () }

/-- A started proposer that listens; no streams, nothing pending. -/
def rsListen : RunState Unit :=
  { p :=
      { started := true
        id := 3
        listener := Option.some 8224
        regs := [(listenerToken, .readable)] }
    s := () }

/-- An environment delivering one listener readiness event whose accept
reports `WouldBlock`. -/
def envAcceptWB : NetEnv :=
  { envBase with poll := .ok [{ token := listenerToken }] }

/-- An environment whose poll fails with a non-`Interrupted` OS error. -/
def envPollFail : NetEnv := { envBase with poll := .error .other }

/-- A started proposer with an empty request (used with `envPollFail`). -/
def rsQuiet : RunState Unit := { p := { started := true, id := 0 }, s := () }

/-- A started, listening proposer holding a connection to `addrA` (token 0)
and a pending request blacklisting `addrA`. -/
def rsBl : RunState Unit :=
  { p :=
      { started := true
        id := 1
        listener := Option.some 9000
        request := { blacklist := [addrA] }
        streams := [(addrA, { token := 0 })]
        in_progress := [(0, addrA)]
        regs := [(0, .readable), (listenerToken, .readable)]
        last_token := 1 }
    s := () }

/-- An environment delivering one listener event whose accept yields `addrB`,
a peer on `addrA`'s ip. -/
def envAcceptB : NetEnv :=
  { envBase with
      poll := .ok [{ token := listenerToken }]
      accept := fun _ => .ok addrB }

/-- A started, listening proposer with no connections. -/
def rsListen2 : RunState Unit :=
  { p :=
      { started := true
        id := 2
        listener := Option.some 7000
        regs := [(listenerToken, .readable)] }
    s := () }

/-- An environment delivering one listener event whose accept yields `addrC`. -/
def envAcceptC : NetEnv :=
  { envBase with
      poll := .ok [{ token := listenerToken }]
      accept := fun _ => .ok addrC }

/-- A marked stream whose write token has been used. -/
def msUsedW : MarkedStream := { writer := true, writerUsed := true }

/-- A marked stream with both tokens outstanding and used and both halves
marked discarded in the meantime (as `set_read_closed`/`set_write_closed`
do). -/
def msUsedBoth : MarkedStream :=
  { reader := true, readerUsed := true, readerDiscarded := true
    writer := true, writerUsed := true, writerDiscarded := true }

/-- A freshly registered managed stream. -/
def msFresh : ManagedStream := { token := 0 }

/-- The stream `msFresh` after its write token was minted. -/
def msMintedW : ManagedStream := { inner := { writer := true }, token := 0 }

/-- A retained stream whose read token is outstanding and whose write half is
discarded: `closed()` is false and `interests()` is `None`. -/
def msStale : ManagedStream :=
  { inner := { reader := true, writerDiscarded := true }, token := 5 }

/-- A proposer holding `msStale` at `addrA`, still registered READABLE. -/
def pStale : Proposer :=
  { started := true
    id := 0
    streams := [(addrA, msStale)]
    regs := [(5, .readable)]
    last_token := 6 }

/-- A managed stream with both halves discarded. -/
def msClosed : ManagedStream :=
  { inner := { readerDiscarded := true, writerDiscarded := true }, token := 1 }

/-- A fresh managed stream with token 2. -/
def msFresh2 : ManagedStream := { token := 2 }

/-- A proposer holding a closed stream and a fresh one. -/
def pTwo : Proposer :=
  { started := true
    id := 0
    streams := [(addrA, msClosed), (addrC, msFresh2)]
    regs := [(1, .readable)]
    last_token := 3 }

/-- A request with every field populated. -/
def rqA : Request :=
  { source := Option.some (.port 1), blacklist := [addrA], connect := [addrC] }

/-- A second fully populated request. -/
def rqB : Request :=
  { source := Option.some .noSource, blacklist := [addrB], connect := [addrB] }

/-! Helper lemmas: association lists, set insertion, and the effect of each
phase on the observation fields. -/

theorem alLookup_insert_self {α β : Type} [DecidableEq α]
    (l : List (α × β)) (k : α) (v : β) :
    alLookup (alInsert l k v) k = Option.some v := by
  induction l with
  | nil => simp [alInsert, alLookup]
  | cons e rest ih =>
    obtain ⟨a, b⟩ := e
    by_cases h : a = k
    · simp [alInsert, alLookup, h]
    · simp only [alInsert, if_neg h, alLookup]
      exact ih

theorem alLookup_insert_ne {α β : Type} [DecidableEq α]
    (l : List (α × β)) (k k2 : α) (v : β) (h : k2 ≠ k) :
    alLookup (alInsert l k v) k2 = alLookup l k2 := by
  induction l with
  | nil =>
    simp only [alInsert, alLookup]
    rw [if_neg (fun hc => h hc.symm)]
  | cons e rest ih =>
    obtain ⟨a, b⟩ := e
    by_cases ha : a = k
    · subst ha
      simp only [alInsert, if_pos rfl, alLookup]
      rw [if_neg (fun hc => h hc.symm), if_neg (fun hc => h hc.symm)]
    · simp only [alInsert, if_neg ha, alLookup]
      by_cases hb : a = k2
      · rw [if_pos hb, if_pos hb]
      · rw [if_neg hb, if_neg hb, ih]

theorem alLookup_remove_self {α β : Type} [DecidableEq α]
    (l : List (α × β)) (k : α) :
    alLookup (alRemove l k) k = Option.none := by
  induction l with
  | nil => rfl
  | cons e rest ih =>
    obtain ⟨a, b⟩ := e
    by_cases h : a = k
    · simp only [alRemove, if_pos h]
      exact ih
    · simp only [alRemove, if_neg h, alLookup]
      exact ih

theorem alLookup_remove_ne {α β : Type} [DecidableEq α]
    (l : List (α × β)) (k k2 : α) (h : k2 ≠ k) :
    alLookup (alRemove l k) k2 = alLookup l k2 := by
  induction l with
  | nil => rfl
  | cons e rest ih =>
    obtain ⟨a, b⟩ := e
    by_cases ha : a = k
    · simp only [alRemove, if_pos ha, alLookup]
      rw [if_neg (fun hc : a = k2 => h (hc.symm.trans ha)), ih]
    · simp only [alRemove, if_neg ha, alLookup]
      by_cases hb : a = k2
      · rw [if_pos hb, if_pos hb]
      · rw [if_neg hb, if_neg hb, ih]

theorem alLookup_remove_none {α β : Type} [DecidableEq α]
    (l : List (α × β)) (k k2 : α) (h : alLookup l k2 = Option.none) :
    alLookup (alRemove l k) k2 = Option.none := by
  by_cases he : k2 = k
  · subst he; exact alLookup_remove_self l k2
  · rw [alLookup_remove_ne l k k2 he]; exact h

theorem mem_setInsert_self (l : List Nat) (x : Nat) : x ∈ setInsert l x := by
  by_cases h : x ∈ l <;> simp [setInsert, h]

theorem mem_setInsert_of_mem (l : List Nat) (x y : Nat) (h : y ∈ l) :
    y ∈ setInsert l x := by
  by_cases hx : x ∈ l <;> simp [setInsert, hx, h]

theorem sendProposal_trace {σ : Type} (sm : StateMachine σ) (rs : RunState σ)
    (k : ProposalKind) :
    (sendProposal sm rs k).trace = rs.trace ++ [k] := rfl

theorem sendProposal_blacklist {σ : Type} (sm : StateMachine σ) (rs : RunState σ)
    (k : ProposalKind) :
    (sendProposal sm rs k).p.blacklist = rs.p.blacklist := rfl

theorem foldSend_spec {σ : Type} (sm : StateMachine σ) (ks : List ProposalKind) :
    ∀ rs : RunState σ,
      ((ks.foldl (sendProposal sm) rs).trace = rs.trace ++ ks)
        ∧ ((ks.foldl (sendProposal sm) rs).p.blacklist = rs.p.blacklist) := by
  induction ks with
  | nil => intro rs; exact ⟨by simp, rfl⟩
  | cons k rest ih =>
    intro rs
    refine ⟨?_, ?_⟩
    · rw [List.foldl_cons, (ih (sendProposal sm rs k)).1, sendProposal_trace]
      simp
    · rw [List.foldl_cons, (ih (sendProposal sm rs k)).2, sendProposal_blacklist]

theorem mintW_readiness (event : MioEvent) (id : ConnectionId)
    (stream : ManagedStream) :
    ((mintW event id stream).2).all ProposalKind.isReadiness = true := by
  unfold mintW
  split
  · split <;> simp [ProposalKind.isReadiness]
  · rfl

theorem mintR_readiness (event : MioEvent) (id : ConnectionId)
    (stream : ManagedStream) :
    ((mintR event id stream).2).all ProposalKind.isReadiness = true := by
  unfold mintR
  split
  · split <;> simp [ProposalKind.isReadiness]
  · rfl

theorem mintProposals_readiness (event : MioEvent) (id : ConnectionId)
    (stream : ManagedStream) :
    ((mintProposals event id stream).2).all ProposalKind.isReadiness = true := by
  have h : (mintProposals event id stream).2 =
      (mintW event id stream).2 ++ (mintR event id (mintW event id stream).1).2 := rfl
  rw [h, List.all_append, mintW_readiness, mintR_readiness]
  rfl

theorem readiness_not_idle (bl : List Nat) (k : ProposalKind)
    (h : k.isReadiness = true) : (!k.isIdle && noBlConn bl k) = true := by
  cases k <;> simp_all [ProposalKind.isReadiness, ProposalKind.isIdle, noBlConn]

theorem noBlConn_avoids (bl : List Nat) (x : Nat) (k : ProposalKind)
    (hk : noBlConn bl k = true) (hx : x ∈ bl) : connAvoids x k = true := by
  cases k with
  | connection addr inc id =>
    simp only [noBlConn, Bool.not_eq_true'] at hk
    have hnm : addr.ip ∉ bl := by simpa using hk
    simp only [connAvoids, Bool.not_eq_true', decide_eq_false_iff_not]
    intro hc
    exact hnm (hc ▸ hx)
  | wake => rfl
  | idle => rfl
  | onReadable id => rfl
  | onWritable id => rfl

theorem registerStream_blacklist (p : Proposer) (addr : SocketAddr)
    (i : Interest) : (registerStream p addr i).1.blacklist = p.blacklist := rfl

theorem dispatchConn_spec {σ : Type} (sm : StateMachine σ) (rs : RunState σ)
    (event : MioEvent) :
    ∃ l, (dispatchConn sm rs event).trace = rs.trace ++ l
      ∧ (dispatchConn sm rs event).p.blacklist = rs.p.blacklist
      ∧ l.all ProposalKind.isReadiness = true := by
  unfold dispatchConn
  cases h1 : alLookup rs.p.in_progress event.token with
  | none => exact ⟨[], by simp, rfl, rfl⟩
  | some addr =>
    dsimp only
    cases h2 : alLookup rs.p.streams addr with
    | none => exact ⟨[], by simp, rfl, rfl⟩
    | some stream =>
      dsimp only
      cases hmp : mintProposals event
          { poll_id := rs.p.id, token := stream.token % 2 ^ 16 } stream with
      | mk st2 pr =>
        dsimp only
        have hall := mintProposals_readiness event
          { poll_id := rs.p.id, token := stream.token % 2 ^ 16 } stream
        rw [hmp] at hall
        refine ⟨pr, ?_, ?_, hall⟩
        · rw [(foldSend_spec sm pr _).1]
        · rw [(foldSend_spec sm pr _).2]

theorem eventLoop_spec {σ : Type} (env : NetEnv) (sm : StateMachine σ)
    (events : List MioEvent) :
    ∀ (rs : RunState σ) (idx : Nat),
      ∃ l, (eventLoop env sm (rs, idx) events).1.trace = rs.trace ++ l
        ∧ (eventLoop env sm (rs, idx) events).1.p.blacklist = rs.p.blacklist
        ∧ l.all (fun k => !k.isIdle && noBlConn rs.p.blacklist k) = true := by
  induction events with
  | nil => intro rs idx; exact ⟨[], by simp [eventLoop], rfl, rfl⟩
  | cons ev rest ih =>
    intro rs idx
    rw [show eventLoop env sm (rs, idx) (ev :: rest) =
        eventLoop env sm
          (if ev.token = listenerToken then dispatchListener env sm rs idx
           else (dispatchConn sm rs ev, idx)) rest from rfl]
    by_cases ht : ev.token = listenerToken
    · rw [if_pos ht]
      unfold dispatchListener
      cases hl : rs.p.listener with
      | none => exact ih rs idx
      | some pt =>
        dsimp only
        cases hacc : env.accept idx with
        | ok addr =>
          dsimp only
          by_cases hbl : (rs.p.blacklist.contains addr.ip) = true
          · rw [if_neg (by simpa using hbl)]
            exact ih rs (idx + 1)
          · have hcf : rs.p.blacklist.contains addr.ip = false := by
              cases hc : rs.p.blacklist.contains addr.ip
              · rfl
              · exact absurd hc hbl
            rw [if_pos (by simpa using hcf)]
            cases hreg : registerStream rs.p addr .readable with
            | mk p2 token =>
              dsimp only
              set k : ProposalKind :=
                .connection addr true { poll_id := p2.id, token := token % 2 ^ 16 } with hk
              set rs2 : RunState σ := sendProposal sm { rs with p := p2 } k with hrs2
              obtain ⟨l, htr, hbl2, hall⟩ := ih rs2 (idx + 1)
              have hp2bl : p2.blacklist = rs.p.blacklist := by
                have := registerStream_blacklist rs.p addr .readable
                rw [hreg] at this
                exact this
              have hrs2bl : rs2.p.blacklist = rs.p.blacklist := by
                rw [hrs2, sendProposal_blacklist]
                exact hp2bl
              refine ⟨k :: l, ?_, ?_, ?_⟩
              · rw [htr, hrs2, sendProposal_trace]
                simp
              · rw [hbl2, hrs2bl]
              · rw [List.all_cons]
                have hnm : addr.ip ∉ rs.p.blacklist := by simpa using hcf
                have hkok : (!k.isIdle && noBlConn rs.p.blacklist k) = true := by
                  rw [hk]
                  simp [ProposalKind.isIdle, noBlConn, hnm]
                rw [hrs2bl] at hall
                rw [hkok, hall]
                rfl
        | error e =>
          dsimp only
          exact ih { rs with err := { rs.err with accept_error := Option.some e } } (idx + 1)
    · rw [if_neg ht]
      obtain ⟨l1, htr1, hbl1, hall1⟩ := dispatchConn_spec sm rs ev
      obtain ⟨l2, htr2, hbl2, hall2⟩ := ih (dispatchConn sm rs ev) idx
      refine ⟨l1 ++ l2, ?_, ?_, ?_⟩
      · rw [htr2, htr1, List.append_assoc]
      · rw [hbl2, hbl1]
      · rw [List.all_append]
        have h1 : l1.all (fun k => !k.isIdle && noBlConn rs.p.blacklist k) = true := by
          rw [List.all_eq_true] at hall1 ⊢
          intro x hx
          exact readiness_not_idle rs.p.blacklist x (hall1 x hx)
        rw [hbl1] at hall2
        rw [h1, hall2]
        rfl

theorem phaseSource_preserve {σ : Type} (env : NetEnv) (rs : RunState σ) :
    (phaseSource env rs).p.streams = rs.p.streams
      ∧ (phaseSource env rs).p.blacklist = rs.p.blacklist
      ∧ (phaseSource env rs).p.request.blacklist = rs.p.request.blacklist
      ∧ (phaseSource env rs).trace = rs.trace
      ∧ (phaseSource env rs).discardLog = rs.discardLog := by
  unfold phaseSource setSource
  cases hs : rs.p.request.source with
  | none => exact ⟨rfl, rfl, rfl, rfl, rfl⟩
  | some source =>
    dsimp only
    cases hl : rs.p.listener <;> cases source <;> dsimp only <;>
      first
      | exact ⟨rfl, rfl, rfl, rfl, rfl⟩
      | (rename_i pt; cases hb : env.bind pt <;> dsimp only <;>
          exact ⟨rfl, rfl, rfl, rfl, rfl⟩)

theorem blacklistOne_spec {σ : Type} (env : NetEnv) (rs : RunState σ)
    (b : SocketAddr) :
    ((blacklistOne env rs b).trace = rs.trace)
      ∧ (∀ x, x ∈ rs.p.blacklist → x ∈ (blacklistOne env rs b).p.blacklist)
      ∧ (b.ip ∈ (blacklistOne env rs b).p.blacklist)
      ∧ (alLookup (blacklistOne env rs b).p.streams b = Option.none)
      ∧ (∀ y, alLookup rs.p.streams y = Option.none →
          alLookup (blacklistOne env rs b).p.streams y = Option.none)
      ∧ (∀ a2, a2 ≠ b →
          alLookup (blacklistOne env rs b).p.streams a2 = alLookup rs.p.streams a2)
      ∧ (∀ a2, a2 ∈ rs.discardLog → a2 ∈ (blacklistOne env rs b).discardLog)
      ∧ (alContains rs.p.streams b = true → b ∈ (blacklistOne env rs b).discardLog)
      ∧ ((blacklistOne env rs b).p.request = rs.p.request) := by
  unfold blacklistOne disconnectPeer
  dsimp only
  cases hs : alLookup rs.p.streams b with
  | none =>
    dsimp only
    refine ⟨rfl, ?_, ?_, ?_, ?_, ?_, ?_, ?_, rfl⟩
    · intro x hx; exact mem_setInsert_of_mem _ _ _ hx
    · exact mem_setInsert_self _ _
    · exact hs
    · intro y hy; exact hy
    · intro a2 _; rfl
    · intro a2 h2; exact h2
    · intro hc; rw [alContains, hs] at hc; cases hc
  | some stream =>
    dsimp only
    cases hd : env.discard b <;> dsimp only <;>
      refine ⟨rfl, ?_, ?_, ?_, ?_, ?_, ?_, ?_, rfl⟩ <;>
        first
        | (intro x hx; exact mem_setInsert_of_mem _ _ _ hx)
        | exact mem_setInsert_self _ _
        | exact alLookup_remove_self _ _
        | (intro y hy; exact alLookup_remove_none _ _ _ hy)
        | (intro a2 h2; exact alLookup_remove_ne _ _ _ h2)
        | (intro a2 h2; exact List.mem_append_left _ h2)
        | (intro _; exact List.mem_append_right _ (List.mem_singleton.mpr rfl))

theorem blacklistLoop_preserve {σ : Type} (env : NetEnv) (bl : List SocketAddr) :
    ∀ rs : RunState σ,
      ((blacklistLoop env rs bl).trace = rs.trace)
        ∧ (∀ x, x ∈ rs.p.blacklist → x ∈ (blacklistLoop env rs bl).p.blacklist)
        ∧ (∀ y, alLookup rs.p.streams y = Option.none →
            alLookup (blacklistLoop env rs bl).p.streams y = Option.none)
        ∧ (∀ a2, a2 ∈ rs.discardLog → a2 ∈ (blacklistLoop env rs bl).discardLog) := by
  induction bl with
  | nil => intro rs; exact ⟨rfl, fun _ hx => hx, fun _ hy => hy, fun _ h2 => h2⟩
  | cons b rest ih =>
    intro rs
    have hone := blacklistOne_spec env rs b
    have hrest := ih (blacklistOne env rs b)
    refine ⟨?_, ?_, ?_, ?_⟩
    · rw [show blacklistLoop env rs (b :: rest) =
          blacklistLoop env (blacklistOne env rs b) rest from rfl,
        hrest.1, hone.1]
    · intro x hx
      exact hrest.2.1 x (hone.2.1 x hx)
    · intro y hy
      exact hrest.2.2.1 y (hone.2.2.2.2.1 y hy)
    · intro a2 h2
      exact hrest.2.2.2 a2 (hone.2.2.2.2.2.2.1 a2 h2)

theorem blacklistLoop_effect {σ : Type} (env : NetEnv) (bl : List SocketAddr) :
    ∀ (rs : RunState σ) (a : SocketAddr), a ∈ bl →
      a.ip ∈ (blacklistLoop env rs bl).p.blacklist
        ∧ alLookup (blacklistLoop env rs bl).p.streams a = Option.none
        ∧ ((alContains rs.p.streams a = true ∨ a ∈ rs.discardLog) →
            a ∈ (blacklistLoop env rs bl).discardLog) := by
  induction bl with
  | nil => intro rs a ha; cases ha
  | cons b rest ih =>
    intro rs a ha
    have hone := blacklistOne_spec env rs b
    have hrest := blacklistLoop_preserve env rest (blacklistOne env rs b)
    have hstep : blacklistLoop env rs (b :: rest) =
        blacklistLoop env (blacklistOne env rs b) rest := rfl
    by_cases hab : a = b
    · subst hab
      refine ⟨?_, ?_, ?_⟩
      · rw [hstep]; exact hrest.2.1 a.ip hone.2.2.1
      · rw [hstep]; exact hrest.2.2.1 a hone.2.2.2.1
      · intro hor
        rw [hstep]
        refine hrest.2.2.2 a ?_
        cases hor with
        | inl hc => exact hone.2.2.2.2.2.2.2.1 hc
        | inr hlog => exact hone.2.2.2.2.2.2.1 a hlog
    · have ha2 : a ∈ rest := by
        cases List.mem_cons.mp ha with
        | inl h => exact absurd h hab
        | inr h => exact h
      have hih := ih (blacklistOne env rs b) a ha2
      refine ⟨?_, ?_, ?_⟩
      · rw [hstep]; exact hih.1
      · rw [hstep]; exact hih.2.1
      · intro hor
        rw [hstep]
        refine hih.2.2 ?_
        cases hor with
        | inl hc =>
          left
          rw [alContains] at hc ⊢
          rw [hone.2.2.2.2.2.1 a hab]
          exact hc
        | inr hlog =>
          right
          exact hone.2.2.2.2.2.2.1 a hlog

theorem armLoop_fields (l : List (SocketAddr × ManagedStream)) :
    ∀ p : Proposer,
      (armLoop p l).blacklist = p.blacklist
        ∧ (armLoop p l).streams = p.streams
        ∧ (armLoop p l).listener = p.listener
        ∧ (armLoop p l).request = p.request := by
  induction l with
  | nil => intro p; exact ⟨rfl, rfl, rfl, rfl⟩
  | cons e rest ih =>
    intro p
    cases hi : e.2.interests with
    | none =>
      rw [show armLoop p (e :: rest) = armLoop p rest from by
        simp only [armLoop, hi]]
      exact ih p
    | some i =>
      rw [show armLoop p (e :: rest) =
          armLoop { p with regs := alInsert p.regs e.2.token i,
                            in_progress := alInsert p.in_progress e.2.token e.1 } rest from by
        simp only [armLoop, hi]]
      exact ih _

theorem connectOne_blacklist {σ : Type} (env : NetEnv) (sm : StateMachine σ)
    (rs : RunState σ) (b : SocketAddr) :
    (connectOne env sm rs b).p.blacklist = rs.p.blacklist := by
  unfold connectOne connectPeer
  dsimp only
  by_cases hc : alContains rs.p.streams b = true
  · rw [if_neg (by simp [hc])]
  · rw [if_pos (by simp [Bool.eq_false_iff.mpr hc])]
    cases hcn : env.connect b with
    | ok u =>
      cases u
      dsimp only
      cases hreg : registerStream rs.p b .writable with
      | mk p2 token =>
        dsimp only
        rw [sendProposal_blacklist]
        have := registerStream_blacklist rs.p b .writable
        rw [hreg] at this
        exact this
    | error e => rfl

theorem connectLoop_blacklist {σ : Type} (env : NetEnv) (sm : StateMachine σ)
    (cs : List SocketAddr) :
    ∀ rs : RunState σ, (connectLoop env sm rs cs).p.blacklist = rs.p.blacklist := by
  induction cs with
  | nil => intro rs; rfl
  | cons b rest ih =>
    intro rs
    rw [show connectLoop env sm rs (b :: rest) =
        connectLoop env sm (connectOne env sm rs b) rest from rfl,
      ih (connectOne env sm rs b), connectOne_blacklist]

theorem reregister_blacklist (p : Proposer) :
    (reregister p).blacklist = p.blacklist := by
  unfold reregister
  dsimp only
  cases hl : (armLoop { p with streams := p.streams.filter (fun e => !e.2.closed) }
      (p.streams.filter (fun e => !e.2.closed))).listener <;>
    dsimp only <;>
    exact (armLoop_fields _ _).1

theorem prePollPhases_blacklist {σ : Type} (env : NetEnv) (sm : StateMachine σ)
    (rs : RunState σ) :
    (prePollPhases env sm rs).p.blacklist =
      (phaseBlacklist env (phaseSource env rs)).p.blacklist := by
  unfold prePollPhases phaseConnects
  dsimp only
  rw [connectLoop_blacklist]
  dsimp only
  exact reregister_blacklist _

theorem dispatchPhase_blacklist {σ : Type} (env : NetEnv) (sm : StateMachine σ)
    (rs : RunState σ) (events : List MioEvent) :
    (dispatchPhase env sm rs events).p.blacklist = rs.p.blacklist := by
  unfold dispatchPhase dispatchEvents
  by_cases he : events.isEmpty = true
  · rw [if_pos he]
    obtain ⟨l, _, hbl, _⟩ := eventLoop_spec env sm events (sendProposal sm rs .idle) 0
    rw [hbl, sendProposal_blacklist]
  · rw [if_neg he]
    obtain ⟨l, _, hbl, _⟩ := eventLoop_spec env sm events rs 0
    exact hbl

theorem runInner_blacklist {σ : Type} (env : NetEnv) (sm : StateMachine σ)
    (rs : RunState σ) :
    (runInner env sm rs).1.p.blacklist = (prePollPhases env sm rs).p.blacklist := by
  unfold runInner
  cases hp : env.poll with
  | ok events =>
    dsimp only
    exact dispatchPhase_blacklist env sm _ events
  | error e =>
    dsimp only
    by_cases he : e = IOErrorKind.interrupted
    · rw [if_pos he]
      exact dispatchPhase_blacklist env sm _ []
    · rw [if_neg he]

theorem dispatchPhase_trace {σ : Type} (env : NetEnv) (sm : StateMachine σ)
    (rs : RunState σ) (events : List MioEvent) :
    (events.isEmpty = true →
      (dispatchPhase env sm rs events).trace = rs.trace ++ [ProposalKind.idle])
      ∧ (events.isEmpty = false →
        ∃ l, (dispatchPhase env sm rs events).trace = rs.trace ++ l
          ∧ l.all (fun k => !k.isIdle && noBlConn rs.p.blacklist k) = true) := by
  constructor
  · intro he
    have hnil : events = [] := List.isEmpty_iff.mp he
    subst hnil
    unfold dispatchPhase dispatchEvents
    rw [if_pos he]
    exact sendProposal_trace sm rs .idle
  · intro he
    unfold dispatchPhase dispatchEvents
    rw [if_neg (by simp [he])]
    obtain ⟨l, h1, _, h3⟩ := eventLoop_spec env sm events rs 0
    exact ⟨l, h1, h3⟩

theorem runInner_trace_ok {σ : Type} (env : NetEnv) (sm : StateMachine σ)
    (rs : RunState σ) (evs : List MioEvent) (hp : env.poll = .ok evs) :
    (runInner env sm rs).1 = dispatchPhase env sm (prePollPhases env sm rs) evs := by
  unfold runInner
  rw [hp]

theorem runInner_interrupted {σ : Type} (env : NetEnv) (sm : StateMachine σ)
    (rs : RunState σ) (hp : env.poll = .error IOErrorKind.interrupted) :
    (runInner env sm rs).1 = dispatchPhase env sm (prePollPhases env sm rs) [] := by
  unfold runInner
  rw [hp]
  dsimp only
  rw [if_pos rfl]

theorem runInner_pollfail_spec {σ : Type} (env : NetEnv) (sm : StateMachine σ)
    (rs : RunState σ) (e : IOError) (hp : env.poll = .error e)
    (hne : e ≠ IOErrorKind.interrupted) :
    (runInner env sm rs).1 =
        { prePollPhases env sm rs with
            err := { (prePollPhases env sm rs).err with poll_error := Option.some e } }
      ∧ (runInner env sm rs).2 =
          Except.error
            { (prePollPhases env sm rs).err with poll_error := Option.some e } := by
  unfold runInner
  rw [hp]
  dsimp only
  rw [if_neg hne]
  exact ⟨rfl, rfl⟩

theorem dispatchPhase_avoids {σ : Type} (env : NetEnv) (sm : StateMachine σ)
    (rs : RunState σ) (events : List MioEvent) (x : Nat) (hx : x ∈ rs.p.blacklist) :
    (newProposals rs (dispatchPhase env sm rs events)).all (connAvoids x) = true := by
  have hd := dispatchPhase_trace env sm rs events
  cases hb : events.isEmpty with
  | true =>
    rw [newProposals, hd.1 hb, List.drop_left]
    rfl
  | false =>
    obtain ⟨l, htr, hall⟩ := hd.2 hb
    rw [newProposals, htr, List.drop_left]
    rw [List.all_eq_true] at hall ⊢
    intro k hk
    have h2 : noBlConn rs.p.blacklist k = true :=
      ((Bool.and_eq_true _ _).mp (hall k hk)).2
    exact noBlConn_avoids _ x k h2 hx

theorem runInner_avoids {σ : Type} (env : NetEnv) (sm : StateMachine σ)
    (rs : RunState σ) (x : Nat)
    (hx : x ∈ (prePollPhases env sm rs).p.blacklist) :
    x ∈ (runInner env sm rs).1.p.blacklist
      ∧ (newProposals (prePollPhases env sm rs) (runInner env sm rs).1).all
          (connAvoids x) = true := by
  refine ⟨by rw [runInner_blacklist]; exact hx, ?_⟩
  cases hp : env.poll with
  | ok evs =>
    rw [runInner_trace_ok env sm rs evs hp]
    exact dispatchPhase_avoids env sm _ evs x hx
  | error e =>
    by_cases he : e = IOErrorKind.interrupted
    · subst he
      rw [runInner_interrupted env sm rs hp]
      exact dispatchPhase_avoids env sm _ [] x hx
    · rw [(runInner_pollfail_spec env sm rs e hp he).1]
      rw [newProposals]
      rw [show ({ prePollPhases env sm rs with
          err := { (prePollPhases env sm rs).err with poll_error := Option.some e } }
            : RunState σ).trace = (prePollPhases env sm rs).trace from rfl]
      rw [List.drop_length]
      rfl

theorem phaseBlacklist_eq {σ : Type} (env : NetEnv) (rs : RunState σ) :
    phaseBlacklist env rs =
      blacklistLoop env
        { rs with p := { rs.p with request := { rs.p.request with blacklist := [] } } }
        rs.p.request.blacklist := rfl

theorem armLoop_regs_untouched (l : List (SocketAddr × ManagedStream)) :
    ∀ (p : Proposer) (t : Nat), t ∉ l.map (fun e => e.2.token) →
      alLookup (armLoop p l).regs t = alLookup p.regs t := by
  induction l with
  | nil => intro p t _; rfl
  | cons e rest ih =>
    intro p t ht
    have htne : t ≠ e.2.token := by
      intro hc
      exact ht (by rw [hc]; exact List.mem_map_of_mem _ (List.mem_cons_self e rest))
    have htrest : t ∉ rest.map (fun e => e.2.token) := by
      intro hc
      exact ht (List.mem_cons_of_mem _ hc)
    cases hi : e.2.interests with
    | none =>
      rw [show armLoop p (e :: rest) = armLoop p rest from by
        simp only [armLoop, hi]]
      exact ih p t htrest
    | some i =>
      rw [show armLoop p (e :: rest) =
          armLoop { p with regs := alInsert p.regs e.2.token i,
                            in_progress := alInsert p.in_progress e.2.token e.1 }
            rest from by simp only [armLoop, hi]]
      rw [ih _ t htrest]
      exact alLookup_insert_ne p.regs e.2.token t i htne

theorem armLoop_regs_mem (l : List (SocketAddr × ManagedStream)) :
    ∀ (p : Proposer) (addr : SocketAddr) (s : ManagedStream),
      (l.map (fun e => e.2.token)).Nodup → (addr, s) ∈ l →
      (∀ i, s.interests = Option.some i →
          alLookup (armLoop p l).regs s.token = Option.some i)
        ∧ (s.interests = Option.none →
            alLookup (armLoop p l).regs s.token = alLookup p.regs s.token) := by
  induction l with
  | nil => intro p addr s _ hm; cases hm
  | cons e rest ih =>
    intro p addr s hnd hm
    have hnd2 : (rest.map (fun e => e.2.token)).Nodup :=
      (List.nodup_cons.mp hnd).2
    have hhead : e.2.token ∉ rest.map (fun e => e.2.token) :=
      (List.nodup_cons.mp hnd).1
    cases List.mem_cons.mp hm with
    | inl heq =>
      have hes : e.2 = s := by rw [← heq]
      have hstok : s.token ∉ rest.map (fun e => e.2.token) := by
        rw [← hes]
        exact hhead
      cases hi : s.interests with
      | some i =>
        rw [show armLoop p (e :: rest) =
            armLoop { p with regs := alInsert p.regs e.2.token i,
                              in_progress := alInsert p.in_progress e.2.token e.1 }
              rest from by simp only [armLoop, hes, hi]]
        constructor
        · intro j hj
          have hij : j = i := (Option.some.inj hj).symm
          subst hij
          rw [armLoop_regs_untouched rest _ s.token hstok]
          rw [show e.2.token = s.token from by rw [hes]]
          exact alLookup_insert_self p.regs s.token j
        · intro hn
          exact Option.noConfusion hn
      | none =>
        rw [show armLoop p (e :: rest) = armLoop p rest from by
          simp only [armLoop, hes, hi]]
        constructor
        · intro j hj
          exact Option.noConfusion hj
        · intro _
          exact armLoop_regs_untouched rest p s.token hstok
    | inr hm2 =>
      have hstok : s.token ∈ rest.map (fun e => e.2.token) :=
        List.mem_map_of_mem _ hm2
      have hne : s.token ≠ e.2.token := by
        intro hc
        rw [← hc] at hhead
        exact hhead hstok
      cases hi : e.2.interests with
      | none =>
        rw [show armLoop p (e :: rest) = armLoop p rest from by
          simp only [armLoop, hi]]
        exact ih p addr s hnd2 hm2
      | some i =>
        rw [show armLoop p (e :: rest) =
            armLoop { p with regs := alInsert p.regs e.2.token i,
                              in_progress := alInsert p.in_progress e.2.token e.1 }
              rest from by simp only [armLoop, hi]]
        have hih := ih { p with regs := alInsert p.regs e.2.token i,
                                 in_progress := alInsert p.in_progress e.2.token e.1 }
          addr s hnd2 hm2
        refine ⟨hih.1, ?_⟩
        intro hn
        rw [hih.2 hn]
        exact alLookup_insert_ne p.regs e.2.token s.token i hne

theorem interests_lattice (s : ManagedStream) :
    (∀ i, s.interests = Option.some i →
        i.isReadable = (!s.inner.reader && !s.inner.readerDiscarded)
          ∧ i.isWritable = (!s.inner.writer && !s.inner.writerDiscarded))
      ∧ (s.interests = Option.none →
          (!s.inner.reader && !s.inner.readerDiscarded) = false
            ∧ (!s.inner.writer && !s.inner.writerDiscarded) = false) := by
  unfold ManagedStream.interests
  cases hr : (!s.inner.reader && !s.inner.readerDiscarded) <;>
    cases hw : (!s.inner.writer && !s.inner.writerDiscarded) <;> dsimp only
  · refine ⟨?_, ?_⟩
    · intro i hi; exact Option.noConfusion hi
    · intro _; exact ⟨rfl, rfl⟩
  · refine ⟨?_, ?_⟩
    · intro i hi; rw [← Option.some.inj hi]; exact ⟨rfl, rfl⟩
    · intro a; exact Option.noConfusion a
  · refine ⟨?_, ?_⟩
    · intro i hi; rw [← Option.some.inj hi]; exact ⟨rfl, rfl⟩
    · intro a; exact Option.noConfusion a
  · refine ⟨?_, ?_⟩
    · intro i hi; rw [← Option.some.inj hi]; exact ⟨rfl, rfl⟩
    · intro a; exact Option.noConfusion a

/-!  Theorems settling the claims. -/

/-- C1: the claim says a successful `connect_peer` on the pending connect
list makes the proposer emit `Connection { addr, incoming: false, id }`.
The code (`proposer.rs` line 232) sets `incoming: true` on this outbound
path; this theorem evaluates the embedded iteration at the failing input —
a started proposer whose pending request asks to connect `addrC`, with the
connect succeeding and allocating token 0 — and shows the emitted proposal
has `incoming = true`, contradicting the claim (and the display code in
`proposal.rs`, which renders `incoming: true` as a new incoming
connection). -/
theorem c1_outbound_connect_emits_incoming_true :
    (runInner envBase smNull rsConnect).1.trace =
      [ProposalKind.connection addrC true { poll_id := 7, token := 0 },
       ProposalKind.idle] := by decide


/-- C2: at a listener readiness event whose `accept()` reports `WouldBlock`,
the embedded `Proposer::run_inner` (`proposer.rs` lines 257-279) performs a
single accept and records the `WouldBlock` failure as `accept_error` — the
iteration returns an error — whereas the embedded `StreamRegistry::accept`
(`stream_registry.rs` lines 144-158) treats `WouldBlock` as a normal
terminator and records nothing.  The claim describes the `StreamRegistry`
behaviour; the proposer actually driving the iteration contradicts it. -/
theorem c2_proposer_records_wouldblock_as_accept_error :
    (runInner envAcceptWB smNull rsListen).1.err.accept_error =
        Option.some IOErrorKind.wouldBlock
      ∧ (runInner envAcceptWB smNull rsListen).2 =
          Except.error { accept_error := Option.some IOErrorKind.wouldBlock }
      ∧ streamRegistryAccept rsListen.p {} (.error .wouldBlock) =
          (rsListen.p, {}, Option.none) := by decide

/-- C5 counterexample: the claim states that dropping a once-token after its
read/write was called performs no OS half-shutdown of that direction.  At the
concrete used-write-token state `msUsedW` the embedded drop handler
(`managed_stream.rs` lines 126-142) still attempts `shutdown(Shutdown::Write)`
— the shutdown call there is unconditional — refuting that conjunct. -/
theorem c5_used_drop_still_attempts_shutdown :
    msUsedW.writerUsed = true ∧ (tcpWriteOnceDrop msUsedW).2 = true := by decide

/-- C5 amended: a once-token dropped without use marks its direction
discarded; one dropped after use clears the outstanding flag and does not
leave the discarded flag set; in BOTH cases the drop attempts the OS
half-shutdown of its direction (the flags follow `discarded := !used`), and
calling write/read marks the direction used. -/
theorem c5_amended_drop_semantics (s : MarkedStream) (r : Except IOError Nat) :
    (tcpWriteOnceDrop s).1.writerDiscarded = !s.writerUsed
      ∧ (tcpWriteOnceDrop s).1.writer = false
      ∧ (tcpWriteOnceDrop s).1.writerUsed = false
      ∧ (tcpWriteOnceDrop s).2 = true
      ∧ (tcpReadOnceDrop s).1.readerDiscarded = !s.readerUsed
      ∧ (tcpReadOnceDrop s).1.reader = false
      ∧ (tcpReadOnceDrop s).1.readerUsed = false
      ∧ (tcpReadOnceDrop s).2 = true
      ∧ (tcpWriteOnceWrite s r).1.writerUsed = true
      ∧ (tcpReadOnceRead s r).1.readerUsed = true := by
  refine ⟨rfl, rfl, rfl, rfl, rfl, rfl, rfl, rfl, ?_, ?_⟩ <;>
    cases r with
    | ok n => rfl
    | error e => cases e <;> rfl

/-- C6: dropping a used once-token assigns `discarded := !used`, overwriting
any discarded flag set in the meantime (for instance by `set_read_closed`
after the poller reported half-close) back to `false`; afterwards the
direction is mintable again and offered to the poller.  Stated for both
directions over an arbitrary marked stream whose token was used. -/
theorem c6_used_drop_resets_discarded (s : MarkedStream) (t : Nat)
    (hr : s.readerUsed = true) (hw : s.writerUsed = true) :
    (tcpReadOnceDrop (ManagedStream.set_read_closed { inner := s, token := t }).inner).1.readerDiscarded = false
      ∧ (tcpReadOnceDrop s).1.readerDiscarded = false
      ∧ (ManagedStream.read_once { inner := (tcpReadOnceDrop s).1, token := t }).isSome = true
      ∧ (∃ i, ManagedStream.interests { inner := (tcpReadOnceDrop s).1, token := t } = Option.some i
            ∧ i.isReadable = true)
      ∧ (tcpWriteOnceDrop (ManagedStream.set_write_closed { inner := s, token := t }).inner).1.writerDiscarded = false
      ∧ (tcpWriteOnceDrop s).1.writerDiscarded = false
      ∧ (ManagedStream.write_once { inner := (tcpWriteOnceDrop s).1, token := t }).isSome = true
      ∧ (∃ i, ManagedStream.interests { inner := (tcpWriteOnceDrop s).1, token := t } = Option.some i
            ∧ i.isWritable = true) := by
  refine ⟨?_, ?_, ?_, ?_, ?_, ?_, ?_, ?_⟩ <;>
    simp [tcpReadOnceDrop, tcpWriteOnceDrop, ManagedStream.set_read_closed,
      ManagedStream.set_write_closed, ManagedStream.read_once,
      ManagedStream.write_once, ManagedStream.interests, hr, hw]
  · cases hwb : !s.writer && !s.writerDiscarded <;>
      simp [hwb, Interest.isReadable]
  · cases hrb : !s.reader && !s.readerDiscarded <;>
      simp [hrb, Interest.isWritable]

/-- C6 witness: the theorem applied at a stream whose both directions are
outstanding, used, and marked discarded in the meantime. -/
theorem c6_witness :
    (tcpReadOnceDrop msUsedBoth).1.readerDiscarded = false
      ∧ (ManagedStream.read_once { inner := (tcpReadOnceDrop msUsedBoth).1, token := 9 }).isSome = true :=
  ⟨(c6_used_drop_resets_discarded msUsedBoth 9 rfl rfl).2.1,
   (c6_used_drop_resets_discarded msUsedBoth 9 rfl rfl).2.2.1⟩

/-- C7: `write_once`/`read_once` mint exactly when the direction's
outstanding flag and discarded flag are both clear; minting sets the
outstanding flag, so a second mint on the result yields nothing. -/
theorem c7_once_token_mint (s : ManagedStream) :
    ((s.write_once).isSome = (!s.inner.writer && !s.inner.writerDiscarded))
      ∧ ((s.read_once).isSome = (!s.inner.reader && !s.inner.readerDiscarded))
      ∧ (∀ s2, s.write_once = Option.some s2 →
          s2.inner.writer = true ∧ s2.write_once = Option.none)
      ∧ (∀ s2, s.read_once = Option.some s2 →
          s2.inner.reader = true ∧ s2.read_once = Option.none) := by
  refine ⟨?_, ?_, ?_, ?_⟩
  · by_cases h : (!s.inner.writer && !s.inner.writerDiscarded) = true <;>
      simp [ManagedStream.write_once, h]
  · by_cases h : (!s.inner.reader && !s.inner.readerDiscarded) = true <;>
      simp [ManagedStream.read_once, h]
  · intro s2 h2
    by_cases h : (!s.inner.writer && !s.inner.writerDiscarded) = true
    · simp only [ManagedStream.write_once, h, if_true, Option.some.injEq] at h2
      subst h2
      simp [ManagedStream.write_once]
    · simp [ManagedStream.write_once, h] at h2
  · intro s2 h2
    by_cases h : (!s.inner.reader && !s.inner.readerDiscarded) = true
    · simp only [ManagedStream.read_once, h, if_true, Option.some.injEq] at h2
      subst h2
      simp [ManagedStream.read_once]
    · simp [ManagedStream.read_once, h] at h2

/-- C7 witness: minting on the fresh stream succeeds and a second mint on
the minted state yields nothing. -/
theorem c7_witness :
    msMintedW.inner.writer = true ∧ msMintedW.write_once = Option.none :=
  (c7_once_token_mint msFresh).2.2.1 msMintedW (by decide)

/-- C9: the `+=` merge of `request.rs` has the empty request as left and
right identity, concatenates the blacklist and connect sequences preserving
order with the left operand first, keeps the left source when both operands
carry one, and is associative (a monoid). -/
theorem c9_request_merge_monoid :
    (∀ r : Request, Request.merge {} r = r)
      ∧ (∀ r : Request, Request.merge r {} = r)
      ∧ (∀ a b : Request, (Request.merge a b).blacklist = a.blacklist ++ b.blacklist
            ∧ (Request.merge a b).connect = a.connect ++ b.connect)
      ∧ (∀ a b : Request, a.source.isSome = true → b.source.isSome = true →
            (Request.merge a b).source = a.source)
      ∧ (∀ a b c : Request,
            Request.merge (Request.merge a b) c = Request.merge a (Request.merge b c)) := by
  refine ⟨?_, ?_, ?_, ?_, ?_⟩
  · intro r
    cases r with
    | mk s b c => cases s <;> simp [Request.merge]
  · intro r
    cases r with
    | mk s b c => cases s <;> simp [Request.merge]
  · intro a b
    exact ⟨rfl, rfl⟩
  · intro a b ha hb
    cases h : a.source with
    | none => rw [h] at ha; cases ha
    | some v => simp [Request.merge, h]
  · intro a b c
    cases a with
    | mk sa ba ca =>
      cases b with
      | mk sb bb cb =>
        cases c with
        | mk sc bc cc =>
          cases sa <;> cases sb <;> cases sc <;>
            simp [Request.merge, List.append_assoc]

/-- C9 witness: the first-writer-wins conjunct applied at two concrete
requests with populated sources. -/
theorem c9_witness : (Request.merge rqA rqB).source = rqA.source :=
  (c9_request_merge_monoid.2.2.2.1) rqA rqB (by decide) (by decide)

/-- C3 counterexample: the claim says that on a poll failure other than
`Interrupted` the iteration still drains the remaining work, event dispatch
included, and in particular still emits `Idle` when zero events were
returned.  At the concrete input — a started proposer with an empty request
and a poll failing with a non-`Interrupted` error — the embedded iteration
emits no proposal at all (no `Idle`) and returns at once with only the poll
error recorded, refuting the claim. -/
theorem c3_poll_error_skips_dispatch :
    (runInner envPollFail smNull rsQuiet).1.trace = []
      ∧ (runInner envPollFail smNull rsQuiet).2 =
          Except.error { poll_error := Option.some IOErrorKind.other } := by decide

/-- C3 amended: a poll failure other than `Interrupted` is surfaced in the
compound `ProposerError` together with the errors of the earlier phases of
the same iteration, but the iteration returns immediately: the dispatch
phase (and hence the `Idle` proposal) does not run, and no proposal is
emitted after the pre-poll phases. -/
theorem c3_amended_poll_error_aborts {σ : Type} (env : NetEnv)
    (sm : StateMachine σ) (rs : RunState σ) (e : IOError)
    (hp : env.poll = .error e) (hne : e ≠ IOErrorKind.interrupted) :
    (runInner env sm rs).1.trace = (prePollPhases env sm rs).trace
      ∧ (runInner env sm rs).1.err =
          { (prePollPhases env sm rs).err with poll_error := Option.some e }
      ∧ (runInner env sm rs).2 =
          Except.error
            { (prePollPhases env sm rs).err with poll_error := Option.some e } := by
  obtain ⟨h1, h2⟩ := runInner_pollfail_spec env sm rs e hp hne
  exact ⟨by rw [h1], by rw [h1], h2⟩

/-- C3 amended, witness at the concrete fixture. -/
theorem c3_amended_witness :
    (runInner envPollFail smNull rsQuiet).1.trace =
        (prePollPhases envPollFail smNull rsQuiet).trace
      ∧ (runInner envPollFail smNull rsQuiet).2 =
          Except.error
            { (prePollPhases envPollFail smNull rsQuiet).err with
                poll_error := Option.some IOErrorKind.other } :=
  ⟨(c3_amended_poll_error_aborts envPollFail smNull rsQuiet .other rfl
      (by decide)).1,
   (c3_amended_poll_error_aborts envPollFail smNull rsQuiet .other rfl
      (by decide)).2.2⟩

/-- C4: after the blacklist phase applies `blacklist_peer(a)`, the ip is in
the blacklist and the connection table no longer holds `a` — this happens in
the phases that run before the poll — and the stream, when present, was
discarded (`shutdown Both`); the blacklist survives the rest of the
iteration, every `Connection` proposal emitted by the dispatch phase (the
accept path) avoids the blacklisted ip, and the same holds in every later
iteration since the blacklist only grows. -/
theorem c4_blacklist_effect {σ : Type} (env : NetEnv) (sm : StateMachine σ)
    (rs : RunState σ) (a : SocketAddr) (ha : a ∈ rs.p.request.blacklist) :
    (a.ip ∈ (phaseBlacklist env (phaseSource env rs)).p.blacklist)
      ∧ (alLookup (phaseBlacklist env (phaseSource env rs)).p.streams a =
          Option.none)
      ∧ (alContains rs.p.streams a = true →
          a ∈ (phaseBlacklist env (phaseSource env rs)).discardLog)
      ∧ ((runInner env sm rs).1.p.blacklist =
          (phaseBlacklist env (phaseSource env rs)).p.blacklist)
      ∧ ((newProposals (prePollPhases env sm rs) (runInner env sm rs).1).all
          (connAvoids a.ip) = true)
      ∧ (∀ rs2 : RunState σ, a.ip ∈ rs2.p.blacklist →
          a.ip ∈ (runInner env sm rs2).1.p.blacklist
            ∧ (newProposals (prePollPhases env sm rs2)
                (runInner env sm rs2).1).all (connAvoids a.ip) = true) := by
  have hps := phaseSource_preserve env rs
  have hmem : a ∈ (phaseSource env rs).p.request.blacklist := by
    rw [hps.2.2.1]
    exact ha
  have heff := blacklistLoop_effect env (phaseSource env rs).p.request.blacklist
    { phaseSource env rs with
        p := { (phaseSource env rs).p with
                 request := { (phaseSource env rs).p.request with blacklist := [] } } }
    a hmem
  have h1 : a.ip ∈ (phaseBlacklist env (phaseSource env rs)).p.blacklist := by
    rw [phaseBlacklist_eq]
    exact heff.1
  refine ⟨h1, ?_, ?_, ?_, ?_, ?_⟩
  · rw [phaseBlacklist_eq]
    exact heff.2.1
  · intro hc
    rw [phaseBlacklist_eq]
    refine heff.2.2 (Or.inl ?_)
    rw [show ({ phaseSource env rs with
        p := { (phaseSource env rs).p with
                 request := { (phaseSource env rs).p.request with blacklist := [] } } }
          : RunState σ).p.streams = rs.p.streams from hps.1]
    exact hc
  · rw [runInner_blacklist, prePollPhases_blacklist]
  · refine (runInner_avoids env sm rs a.ip ?_).2
    rw [prePollPhases_blacklist]
    exact h1
  · intro rs2 h2
    refine runInner_avoids env sm rs2 a.ip ?_
    rw [prePollPhases_blacklist, phaseBlacklist_eq]
    refine (blacklistLoop_preserve env _ _).2.1 a.ip ?_
    rw [show ({ phaseSource env rs2 with
        p := { (phaseSource env rs2).p with
                 request := { (phaseSource env rs2).p.request with blacklist := [] } } }
          : RunState σ).p.blacklist = rs2.p.blacklist from
      (phaseSource_preserve env rs2).2.1]
    exact h2

/-- C4 witness: blacklisting `addrA` while holding a connection to it, then
accepting a peer `addrB` on the same ip in the same iteration: the
connection is gone from the table before the poll, its discard was invoked,
and the dispatch phase emits no `Connection` proposal for the ip. -/
theorem c4_blacklist_effect_witness :
    (addrA.ip ∈ (phaseBlacklist envAcceptB (phaseSource envAcceptB rsBl)).p.blacklist)
      ∧ (alLookup (phaseBlacklist envAcceptB (phaseSource envAcceptB rsBl)).p.streams
          addrA = Option.none)
      ∧ (addrA ∈ (phaseBlacklist envAcceptB (phaseSource envAcceptB rsBl)).discardLog)
      ∧ ((newProposals (prePollPhases envAcceptB smNull rsBl)
          (runInner envAcceptB smNull rsBl).1).all (connAvoids addrA.ip) = true) :=
  ⟨(c4_blacklist_effect envAcceptB smNull rsBl addrA (by decide)).1,
   (c4_blacklist_effect envAcceptB smNull rsBl addrA (by decide)).2.1,
   (c4_blacklist_effect envAcceptB smNull rsBl addrA (by decide)).2.2.1 (by decide),
   (c4_blacklist_effect envAcceptB smNull rsBl addrA (by decide)).2.2.2.2.1⟩

/-- C8 counterexample: the claim says that after `reregister` a stream is
registered with the poller for a direction iff that direction has no
outstanding token and is not discarded.  `pStale` holds a retained stream
(read token outstanding, write half discarded, so not closed) whose
`interests()` is `None`; `reregister` neither re-arms nor deregisters it, so
its stale READABLE registration survives although the read direction has an
outstanding token — the "only if" direction of the claim fails. -/
theorem c8_stale_registration :
    (alLookup (reregister pStale).streams addrA = Option.some msStale)
      ∧ msStale.inner.reader = true
      ∧ msStale.closed = false
      ∧ msStale.interests = Option.none
      ∧ alLookup (reregister pStale).regs 5 = Option.some Interest.readable := by
  decide

/-- C8 amended: `reregister` removes exactly the streams with both halves
discarded; every retained stream whose `interests()` is non-empty is re-armed
with exactly the directions that have no outstanding token and are not
discarded; a retained stream whose `interests()` is empty keeps its previous
poller registration (it is not deregistered), and its empty interest set
certifies that each direction is outstanding or discarded.  Stated under the
registry invariants that stream tokens are distinct and none equals the
listener token. -/
theorem c8_amended_reregister (p : Proposer)
    (hnd : (streamTokens p).Nodup) (hlt : listenerToken ∉ streamTokens p) :
    ((reregister p).streams = p.streams.filter (fun e => !e.2.closed))
      ∧ (∀ addr s, (addr, s) ∈ (reregister p).streams →
          (∀ i, s.interests = Option.some i →
              alLookup (reregister p).regs s.token = Option.some i
                ∧ i.isReadable = (!s.inner.reader && !s.inner.readerDiscarded)
                ∧ i.isWritable = (!s.inner.writer && !s.inner.writerDiscarded))
            ∧ (s.interests = Option.none →
                alLookup (reregister p).regs s.token = alLookup p.regs s.token
                  ∧ (!s.inner.reader && !s.inner.readerDiscarded) = false
                  ∧ (!s.inner.writer && !s.inner.writerDiscarded) = false)) := by
  have hsub : ((p.streams.filter (fun e => !e.2.closed)).map
      (fun e => e.2.token)).Sublist (streamTokens p) :=
    (List.filter_sublist p.streams).map (fun e => e.2.token)
  have hnd2 : ((p.streams.filter (fun e => !e.2.closed)).map
      (fun e => e.2.token)).Nodup := hnd.sublist hsub
  have harm := armLoop_fields (p.streams.filter (fun e => !e.2.closed))
    { p with streams := p.streams.filter (fun e => !e.2.closed) }
  have hstr : (reregister p).streams = p.streams.filter (fun e => !e.2.closed) := by
    unfold reregister
    dsimp only
    cases hl : (armLoop { p with streams := p.streams.filter (fun e => !e.2.closed) }
        (p.streams.filter (fun e => !e.2.closed))).listener <;> dsimp only <;>
      exact harm.2.1
  refine ⟨hstr, ?_⟩
  intro addr s hmem
  rw [hstr] at hmem
  have htokmem : s.token ∈ streamTokens p := by
    refine hsub.mem ?_
    exact List.mem_map_of_mem _ hmem
  have htokne : s.token ≠ listenerToken := fun hc => hlt (hc ▸ htokmem)
  have hregmem := armLoop_regs_mem (p.streams.filter (fun e => !e.2.closed))
    { p with streams := p.streams.filter (fun e => !e.2.closed) } addr s hnd2 hmem
  have hregs : alLookup (reregister p).regs s.token =
      alLookup (armLoop { p with streams := p.streams.filter (fun e => !e.2.closed) }
        (p.streams.filter (fun e => !e.2.closed))).regs s.token := by
    unfold reregister
    dsimp only
    cases hl : (armLoop { p with streams := p.streams.filter (fun e => !e.2.closed) }
        (p.streams.filter (fun e => !e.2.closed))).listener with
    | none => rfl
    | some pt =>
      exact alLookup_insert_ne
        (armLoop { p with streams := p.streams.filter (fun e => !e.2.closed) }
          (p.streams.filter (fun e => !e.2.closed))).regs
        listenerToken s.token Interest.readable htokne
  have hlat := interests_lattice s
  constructor
  · intro i hi
    refine ⟨?_, (hlat.1 i hi).1, (hlat.1 i hi).2⟩
    rw [hregs]
    exact hregmem.1 i hi
  · intro hn
    refine ⟨?_, (hlat.2 hn).1, (hlat.2 hn).2⟩
    rw [hregs, hregmem.2 hn]

/-- C8 amended, witness: the registry `pTwo` holds one closed stream (which
`reregister` removes) and one fresh one. -/
theorem c8_amended_reregister_witness :
    (reregister pTwo).streams = pTwo.streams.filter (fun e => !e.2.closed) :=
  (c8_amended_reregister pTwo (by decide) (by decide)).1

/-- C10 counterexample: the claim says that when the poll returns at least
one event, at least one readiness proposal is emitted.  With a single
listener event whose accept yields a fresh peer, the dispatch emits exactly
one `Connection` proposal: zero `Idle` and zero readiness proposals,
refuting the at-least-one-readiness conjunct. -/
theorem c10_listener_event_no_readiness :
    (newProposals (prePollPhases envAcceptC smNull rsListen2)
        (runInner envAcceptC smNull rsListen2).1) =
      [ProposalKind.connection addrC true { poll_id := 2, token := 0 }]
      ∧ ((newProposals (prePollPhases envAcceptC smNull rsListen2)
          (runInner envAcceptC smNull rsListen2).1).countP
            (fun k => k.isIdle) = 0)
      ∧ ((newProposals (prePollPhases envAcceptC smNull rsListen2)
          (runInner envAcceptC smNull rsListen2).1).countP
            (fun k => k.isReadiness) = 0) := by decide

/-- C10 amended: in a non-first iteration whose poll succeeds, the `Idle`
proposal is emitted exactly once iff the poll returned zero events, and in
that case no readiness proposal is emitted; when the poll returned at least
one event no `Idle` is emitted (readiness proposals may be absent, e.g. when
the only events are listener events). -/
theorem c10_amended_idle_iff_no_events {σ : Type} (env : NetEnv)
    (sm : StateMachine σ) (rs : RunState σ) (evs : List MioEvent)
    (hp : env.poll = .ok evs) :
    ((newProposals (prePollPhases env sm rs) (runInner env sm rs).1).countP
        (fun k => k.isIdle) = if evs.isEmpty then 1 else 0)
      ∧ (evs.isEmpty = true →
          (newProposals (prePollPhases env sm rs) (runInner env sm rs).1).countP
            (fun k => k.isReadiness) = 0) := by
  rw [runInner_trace_ok env sm rs evs hp]
  have hd := dispatchPhase_trace env sm (prePollPhases env sm rs) evs
  cases hb : evs.isEmpty with
  | true =>
    rw [if_pos rfl]
    constructor
    · rw [newProposals, hd.1 hb, List.drop_left]
      rfl
    · intro _
      rw [newProposals, hd.1 hb, List.drop_left]
      rfl
  | false =>
    obtain ⟨l, htr, hall⟩ := hd.2 hb
    rw [if_neg (by simp)]
    constructor
    · rw [newProposals, htr, List.drop_left]
      rw [List.countP_eq_zero]
      intro k hk
      have hni := ((Bool.and_eq_true _ _).mp
        ((List.all_eq_true.mp hall) k hk)).1
      simp only [Bool.not_eq_true'] at hni
      simp [hni]
    · intro hcontra
      exact Bool.noConfusion hcontra

/-- C10 amended, witness: the listener-only iteration has one event, so no
`Idle` proposal is counted. -/
theorem c10_amended_witness :
    (newProposals (prePollPhases envAcceptC smNull rsListen2)
        (runInner envAcceptC smNull rsListen2).1).countP
      (fun k => k.isIdle) =
      if ([{ token := listenerToken }] : List MioEvent).isEmpty then 1 else 0 :=
  (c10_amended_idle_iff_no_events envAcceptC smNull rsListen2
    [{ token := listenerToken }] rfl).1

end ColdIo
